import Mathlib

unseal Rat.mul Rat.inv Rat.add Rat.sub

/-!
Verification of the statistics core of the 6pack A/B-tester dashboard
(`streamlit_app.py`).

The dataset is modelled as a pandas DataFrame built from a list of records:
a list of column names together with a list of rows, each row an association
list from column name to cell value.  A key absent from a row's association
list reads as a null cell (pandas fills missing record keys with NaN).
Machine floats only ever hold exact small rationals in the statistics
computed here, so cell numerics and rates are modelled over `ℚ`/`ℤ`;
the one place the source can produce a non-finite float (the lift division)
is modelled with an explicit `LiftVal` codomain carrying `inf`/`negInf`/`nan`.
-/

namespace SixPack

/-- A cell value of the tabular dataset.  `null` models pandas NaN/None. -/
inductive Val where
  | null
  | bool (b : Bool)
  | int (n : ℤ)
  | str (s : String)
deriving DecidableEq, Repr

/-- Numeric reading of a cell, as used by pandas `sum` on a column:
booleans count as 0/1, integers as themselves, and nulls are skipped
(contribute 0).  String cells never reach a numeric `sum` in the modelled
code: `calculate_conversion_rates` sums the `converted` column it has just
constructed boolean, and the posterior chart's sum is reached only past an
explicit string check (a string cell there makes the source raise
`TypeError`, modelled as a raising outcome, never as a number). -/
def valNum : Val → ℤ
  | Val.null => 0
  | Val.bool b => if b then 1 else 0
  | Val.int n => n
  | Val.str _ => 0

/-- Whether a cell holds a string.  In `len(vd) - vd["converted"].sum()`
a string cell is the one `Val` shape that makes Python raise `TypeError`
(an all-string column sums by concatenation and then breaks the integer
subtraction; a mixed column breaks the sum itself); booleans and integers
sum numerically and nulls are skipped. -/
def Val.isStr : Val → Bool
  | Val.str _ => true
  | _ => false

/-- Lexicographic order on strings as lists of characters, by code point —
the order Python uses to compare strings (so the order pandas sorts string
group keys in). -/
def charsLe : List Char → List Char → Bool
  | [], _ => true
  | _ :: _, [] => false
  | c :: cs, d :: ds =>
    if c.toNat < d.toNat then true
    else if d.toNat < c.toNat then false
    else charsLe cs ds

/-- Total order on cell values used to model the sorted group-key order of
`DataFrame.groupby` (default `sort=True`) and `pd.crosstab`.  On a
homogeneous column (all strings, all ints, or all bools — the only cases the
dashboard meets) it agrees with the pandas sort; across constructors an
arbitrary rank order is fixed to keep the model total. -/
def valLe (a b : Val) : Bool :=
  match a, b with
  | Val.null, _ => true
  | Val.bool _, Val.null => false
  | Val.bool x, Val.bool y => !x || y
  | Val.bool _, Val.int _ => true
  | Val.bool _, Val.str _ => true
  | Val.int _, Val.null => false
  | Val.int _, Val.bool _ => false
  | Val.int m, Val.int n => decide (m ≤ n)
  | Val.int _, Val.str _ => true
  | Val.str _, Val.null => false
  | Val.str _, Val.bool _ => false
  | Val.str _, Val.int _ => false
  | Val.str s, Val.str t => charsLe s.data t.data

/-- Propositional form of `valLe`. -/
def valLeP (a b : Val) : Prop := valLe a b = true

instance : DecidableRel valLeP := fun a b => by
  unfold valLeP; infer_instance

/-- A row of the dataset: an association list from column name to value. -/
abbrev Row := List (String × Val)

/-- Reading a cell: the first binding of the column name, `null` when the
record lacks the key (pandas fills missing keys of a record with NaN). -/
def getVal : Row → String → Val
  | [], _ => Val.null
  | (c', v) :: t, c => if c' = c then v else getVal t c

/-- Writing a cell, modelling column assignment `df[c] = v` restricted to one
row: replaces the (first) binding when the key is present, appends the
binding otherwise.  Rows built from records bind each key at most once, so
replacing the first binding is the pandas column overwrite. -/
def setVal : Row → String → Val → Row
  | [], c, v => [(c, v)]
  | (c', w) :: t, c, v =>
    if c' = c then (c, v) :: t else (c', w) :: setVal t c v

/-- The dataset: pandas DataFrame with a column list and a list of rows. -/
structure DF where
  cols : List String
  rows : List Row
deriving DecidableEq, Repr

/-- Sort a list of values ascending, modelling the sorted key order pandas
uses for groupby results and crosstab margins. -/
def sortVals (l : List Val) : List Val := List.insertionSort valLeP l

/-- The derived conversion flag of a row: `~df[event2_col].isnull()`. -/
def convFlag (e2 : String) (r : Row) : Bool := decide (getVal r e2 ≠ Val.null)

/-- The in-place enrichment `df["converted"] = ~df[event2_col].isnull()`:
every row gets a boolean `converted` cell, and the column list gains
`converted` when it was not already a column. -/
def addConverted (e2 : String) (df : DF) : DF :=
  { cols := if "converted" ∈ df.cols then df.cols else df.cols ++ ["converted"],
    rows := df.rows.map (fun r => setVal r "converted" (Val.bool (convFlag e2 r))) }

/-- Projection of the enriched dataset used by the groupby:
per row, the pair (assignment value, converted value). -/
def groupPairs (g : String) (df : DF) : List (Val × Val) :=
  df.rows.map (fun r => (getVal r g, getVal r "converted"))

/-- The distinct non-null assignment values, ascending — the group keys of
`df.groupby(assignment_col)` (null keys are dropped, keys are sorted). -/
def sortedGroupKeys (pairs : List (Val × Val)) : List Val :=
  sortVals (((pairs.map Prod.fst).filter (fun v => decide (v ≠ Val.null))).dedup)

/-- Aggregate `count` of a group: the non-null `converted` cells among the
rows whose assignment value is `k` (pandas `count` skips nulls). -/
def groupCount (pairs : List (Val × Val)) (k : Val) : ℕ :=
  pairs.countP (fun p => decide (p.1 = k ∧ p.2 ≠ Val.null))

/-- Aggregate `sum` of a group: sum of the `converted` cells (as numbers)
over the rows whose assignment value is `k`. -/
def groupSum (pairs : List (Val × Val)) (k : Val) : ℤ :=
  ((pairs.filter (fun p => decide (p.1 = k))).map (fun p => valNum p.2)).sum

/-- One output row of the `conversion_rates` DataFrame. -/
structure ConversionRecord where
  key : Val
  count : ℕ
  sum : ℤ
  conversion_rate : ℚ
deriving DecidableEq, Repr

/-- The `conversion_rates` table: one record per group key, in the (sorted)
groupby key order, with `conversion_rate = sum / count`. -/
def makeRecords (pairs : List (Val × Val)) : List ConversionRecord :=
  (sortedGroupKeys pairs).map (fun k =>
    { key := k, count := groupCount pairs k, sum := groupSum pairs k,
      conversion_rate := (groupSum pairs k : ℚ) / (groupCount pairs k : ℚ) })

/-- The lookup `conversion_rates[conversion_rates[assignment_col] == k]
["conversion_rate"].iloc[0]`; the `headD 0` default is dead in the source
because the lookup is guarded by key membership. -/
def rateOf (records : List ConversionRecord) (k : Val) : ℚ :=
  ((records.filter (fun rec => decide (rec.key = k))).map
    (fun rec => rec.conversion_rate)).headD 0

/-- A lift value as the caller sees it: numpy float64 division yields a
finite value, an infinity, or NaN. -/
inductive LiftVal where
  | finite (q : ℚ)
  | inf
  | negInf
  | nan
deriving DecidableEq, Repr

/-- Numpy float64 division `x / y` (exact operands): finite quotient when
`y ≠ 0`; `±inf` for a signed numerator over zero; NaN for `0 / 0`.
No exception is raised (unlike plain Python floats). -/
def npDiv (x y : ℚ) : LiftVal :=
  if y = 0 then (if 0 < x then LiftVal.inf else if x < 0 then LiftVal.negInf else LiftVal.nan)
  else LiftVal.finite (x / y)

/-- `calculate_conversion_rates(df, event1_col, event2_col, assignment_col)`.
The first component is the dataset as the caller sees it after the call
(the source mutates `df` in place by adding the `converted` column); the
second is the returned pair, `none` standing for the `(None, None)` of the
guard, and the inner `Option LiftVal` for the possibly-`None` `lift_drop`. -/
def calculate_conversion_rates (df : DF) (e1 e2 g : String) :
    DF × Option (List ConversionRecord × Option LiftVal) :=
  if df.rows = [] ∨ df.cols = [] ∨ e1 ∉ df.cols ∨ e2 ∉ df.cols ∨ g ∉ df.cols then
    (df, none)
  else
    let df2 := addConverted e2 df
    let pairs := groupPairs g df2
    let records := makeRecords pairs
    let keys := sortedGroupKeys pairs
    let lift :=
      if keys.length = 2 then
        if Val.str "A" ∈ keys ∧ Val.str "B" ∈ keys then
          some (npDiv (rateOf records (Val.str "B") - rateOf records (Val.str "A"))
            (rateOf records (Val.str "A")))
        else none
      else none
    (df2, some (records, lift))

/-- The records component of a `calculate_conversion_rates` result. -/
def recordsOf (res : DF × Option (List ConversionRecord × Option LiftVal)) :
    Option (List ConversionRecord) :=
  res.2.map Prod.fst

/-- The lift component of a `calculate_conversion_rates` result. -/
def liftOf (res : DF × Option (List ConversionRecord × Option LiftVal)) :
    Option LiftVal :=
  match res.2 with
  | none => none
  | some (_, l) => l

/-- First-encountered-order distinct values, modelling `Series.unique()`
(which keeps first-occurrence order and includes a null as a value). -/
def firstDistinct (l : List Val) : List Val :=
  l.foldl (fun acc v => if v ∈ acc then acc else acc ++ [v]) []

/-- The sampling grid `np.linspace(0, 1, 1000)`. -/
def posteriorGrid : List ℚ := (List.range 1000).map (fun i => (i : ℚ) / 999)

/-- `scipy.stats.beta.pdf(x, a, b)` for the integer shape parameters the
source produces: for `a, b ≥ 1` the exact density
`x^(a-1) (1-x)^(b-1) / B(a, b)` with `1 / B(a, b) = (a+b-1)! / ((a-1)!(b-1)!)`;
other shapes (unreachable on a boolean `converted` column) read as 0. -/
def betaPdfQ (a b : ℤ) (x : ℚ) : ℚ :=
  if 1 ≤ a ∧ 1 ≤ b then
    x ^ (a - 1).toNat * (1 - x) ^ (b - 1).toNat *
      (((a + b - 1).toNat.factorial : ℚ) /
        (((a - 1).toNat.factorial : ℚ) * ((b - 1).toNat.factorial : ℚ)))
  else 0

/-- One plotted posterior curve: the variant label, the Beta shape
parameters, and the sampled (x, density) points. -/
structure PosteriorCurve where
  label : Val
  a : ℤ
  b : ℤ
  points : List (ℚ × ℚ)
deriving DecidableEq, Repr

/-- Outcome of `create_posterior_distribution_chart`: the guard's `None`, a
raised exception escaping the function (it has no try/except), or the list
of the two plotted curves. -/
inductive PosteriorOutcome where
  | absent
  | raisesError
  | ok (curves : List PosteriorCurve)
deriving DecidableEq, Repr

/-- `create_posterior_distribution_chart(df, assignment_col)`: `absent`
models the `None` returns of the two guards.  Past the guards every row
belongs to arm A or arm B, and the per-variant loop computes
`failures = len(variant_data) - variant_data["converted"].sum()`: if any
row's `converted` cell is a string this raises `TypeError` (string sums
concatenate, or the mixed sum itself breaks), aborting the chart —
modelled by `raisesError`.  Otherwise the sum is numeric (`valNum`) and
the chart is the list of the two curves in `unique()` order.  The
`df is None` guard of the source is outside the model (the dataset
argument is always a materialised dataset here). -/
def create_posterior_distribution_chart (df : DF) (g : String) :
    PosteriorOutcome :=
  if g ∉ df.cols ∨ "converted" ∉ df.cols then PosteriorOutcome.absent
  else if (firstDistinct (df.rows.map (fun r => getVal r g))).length ≠ 2
      ∨ Val.str "A" ∉ firstDistinct (df.rows.map (fun r => getVal r g))
      ∨ Val.str "B" ∉ firstDistinct (df.rows.map (fun r => getVal r g)) then
    PosteriorOutcome.absent
  else if df.rows.any (fun r => (getVal r "converted").isStr) then
    PosteriorOutcome.raisesError
  else
    PosteriorOutcome.ok ((firstDistinct (df.rows.map (fun r => getVal r g))).map (fun v =>
      let vd := df.rows.filter (fun r => decide (getVal r g = v))
      let successes : ℤ := (vd.map (fun r => valNum (getVal r "converted"))).sum
      let failures : ℤ := (vd.length : ℤ) - successes
      { label := v, a := successes + 1, b := failures + 1,
        points := posteriorGrid.map (fun x => (x, betaPdfQ (successes + 1) (failures + 1) x)) }))

/-- The curves of a posterior outcome, when there are any. -/
def PosteriorOutcome.curvesOf : PosteriorOutcome → Option (List PosteriorCurve)
  | PosteriorOutcome.absent => none
  | PosteriorOutcome.raisesError => none
  | PosteriorOutcome.ok curves => some curves

/-- The rows `pd.crosstab(df[assignment_col], df["converted"])` keeps:
crosstab drops every row with a null in either series. -/
def chiKept (df : DF) (g : String) : List Row :=
  df.rows.filter (fun r =>
    decide (getVal r g ≠ Val.null) && decide (getVal r "converted" ≠ Val.null))

/-- The contingency-table row labels: distinct kept assignment values,
sorted ascending (crosstab sorts its index). -/
def chiRowKeys (df : DF) (g : String) : List Val :=
  sortVals (((chiKept df g).map (fun r => getVal r g)).dedup)

/-- The contingency-table column labels: distinct kept `converted` values,
sorted ascending (crosstab sorts its columns; False sorts before True). -/
def chiColKeys (df : DF) (g : String) : List Val :=
  sortVals (((chiKept df g).map (fun r => getVal r "converted")).dedup)

/-- One cell of the contingency table. -/
def chiCell (df : DF) (g : String) (a c : Val) : ℕ :=
  (chiKept df g).countP (fun r =>
    decide (getVal r g = a ∧ getVal r "converted" = c))

/-- The observed contingency table, rows in `chiRowKeys` order and columns
in `chiColKeys` order. -/
def chiObserved (df : DF) (g : String) : List (List ℕ) :=
  (chiRowKeys df g).map (fun a => (chiColKeys df g).map (fun c => chiCell df g a c))

/-- Row margin of the observed table. -/
def chiRowTotal (df : DF) (g : String) (a : Val) : ℕ :=
  ((chiColKeys df g).map (fun c => chiCell df g a c)).sum

/-- Column margin of the observed table. -/
def chiColTotal (df : DF) (g : String) (c : Val) : ℕ :=
  ((chiRowKeys df g).map (fun a => chiCell df g a c)).sum

/-- Grand total of the observed table. -/
def chiGrand (df : DF) (g : String) : ℕ :=
  ((chiRowKeys df g).map (fun a => chiRowTotal df g a)).sum

/-- The expected-frequency table of `scipy.stats.contingency.expected_freq`:
`expected[i][j] = row_total[i] * col_total[j] / grand_total`. -/
def chiExpected (df : DF) (g : String) : List (List ℚ) :=
  (chiRowKeys df g).map (fun a => (chiColKeys df g).map (fun c =>
    ((chiRowTotal df g a : ℚ) * (chiColTotal df g c : ℚ)) / (chiGrand df g : ℚ)))

/-- Yates continuity adjustment of an observed count, as scipy applies it
when `dof == 1`: move `o` toward `e` by `min(0.5, |e - o|)`. -/
def yatesAdjust (o e : ℚ) : ℚ :=
  o + (min (1 / 2) |e - o|) * (if o < e then 1 else if e < o then -1 else 0)

/-- The Pearson chi-squared statistic of `scipy.stats.chi2_contingency`
(with its default continuity correction when `dof == 1`). -/
def chiStat (df : DF) (g : String) : ℚ :=
  ((chiRowKeys df g).map (fun a => ((chiColKeys df g).map (fun c =>
    (((if ((chiRowKeys df g).length - 1) * ((chiColKeys df g).length - 1) = 1 then
        yatesAdjust (chiCell df g a c : ℚ)
          (((chiRowTotal df g a : ℚ) * (chiColTotal df g c : ℚ)) / (chiGrand df g : ℚ))
      else (chiCell df g a c : ℚ)) -
      ((chiRowTotal df g a : ℚ) * (chiColTotal df g c : ℚ)) / (chiGrand df g : ℚ)) ^ 2) /
      (((chiRowTotal df g a : ℚ) * (chiColTotal df g c : ℚ)) / (chiGrand df g : ℚ)))).sum)).sum

/-- The 4-tuple `chi2_contingency` returns, without the p-value: the p-value
is the upper tail of the chi-squared distribution at `chi2`, a transcendental
quantity the rational model does not carry (no claim concerns it). -/
structure ChiSquaredResult where
  chi2 : ℚ
  dof : ℕ
  expected : List (List ℚ)
deriving DecidableEq, Repr

/-- Outcome of `perform_chi_squared_test`: the guard's `None`, a raised
exception escaping the function (it has no try/except), or a result. -/
inductive ChiOutcome where
  | absent
  | raisesError
  | ok (res : ChiSquaredResult)
deriving DecidableEq, Repr

/-- `perform_chi_squared_test(df, assignment_col)`: `absent` when a column is
missing; `chi2_contingency` raises `ValueError` when the crosstab is empty
(`observed.size == 0`) or when an expected frequency is zero; otherwise the
statistic, degrees of freedom `(R-1)(C-1)` and expected table are returned. -/
def perform_chi_squared_test (df : DF) (g : String) : ChiOutcome :=
  if g ∉ df.cols ∨ "converted" ∉ df.cols then ChiOutcome.absent
  else if (chiRowKeys df g).length = 0 ∨ (chiColKeys df g).length = 0 then
    ChiOutcome.raisesError
  else if (chiExpected df g).any (fun row => row.any (fun x => decide (x = 0))) then
    ChiOutcome.raisesError
  else
    ChiOutcome.ok
      { chi2 := chiStat df g,
        dof := ((chiRowKeys df g).length - 1) * ((chiColKeys df g).length - 1),
        expected := chiExpected df g }

/-- The result payload of a chi-squared outcome, when there is one. -/
def ChiOutcome.resOf : ChiOutcome → Option ChiSquaredResult
  | ChiOutcome.absent => none
  | ChiOutcome.raisesError => none
  | ChiOutcome.ok res => some res

theorem getVal_setVal_same (r : Row) (c : String) (v : Val) :
    getVal (setVal r c v) c = v := by
  induction r with
  | nil => simp [setVal, getVal]
  | cons p t ih =>
    obtain ⟨pc, pv⟩ := p
    by_cases hp : pc = c
    · simp [setVal, hp, getVal]
    · simp [setVal, hp, getVal, ih]

theorem getVal_setVal_other (r : Row) (c c' : String) (v : Val) (h : c ≠ c') :
    getVal (setVal r c v) c' = getVal r c' := by
  induction r with
  | nil => simp [setVal, getVal, h]
  | cons p t ih =>
    obtain ⟨pc, pv⟩ := p
    by_cases hp : pc = c
    · subst hp
      simp [setVal, getVal, h]
    · simp [setVal, hp, getVal, ih]

theorem charsLe_total : ∀ xs ys, charsLe xs ys = true ∨ charsLe ys xs = true
  | [], _ => Or.inl rfl
  | _ :: _, [] => Or.inr rfl
  | x :: xs, y :: ys => by
    by_cases hxy : x.toNat < y.toNat
    · exact Or.inl (by simp [charsLe, hxy])
    · by_cases hyx : y.toNat < x.toNat
      · exact Or.inr (by simp [charsLe, hyx])
      · rcases charsLe_total xs ys with h | h
        · exact Or.inl (by simp [charsLe, hxy, hyx, h])
        · exact Or.inr (by simp [charsLe, hxy, hyx, h])

theorem charsLe_trans : ∀ xs ys zs, charsLe xs ys = true → charsLe ys zs = true →
    charsLe xs zs = true
  | [], _, _, _, _ => rfl
  | _ :: _, [], _, hab, _ => by simp [charsLe] at hab
  | _ :: _, _ :: _, [], _, hbc => by simp [charsLe] at hbc
  | x :: xs, y :: ys, z :: zs, hab, hbc => by
    simp only [charsLe] at hab hbc ⊢
    by_cases hxy : x.toNat < y.toNat
    · rw [if_pos hxy] at hab
      by_cases hyz : y.toNat < z.toNat
      · rw [if_pos (show x.toNat < z.toNat by omega)]
      · by_cases hzy : z.toNat < y.toNat
        · rw [if_neg hyz, if_pos hzy] at hbc
          exact absurd hbc Bool.false_ne_true
        · rw [if_pos (show x.toNat < z.toNat by omega)]
    · by_cases hyx : y.toNat < x.toNat
      · rw [if_neg hxy, if_pos hyx] at hab
        exact absurd hab Bool.false_ne_true
      · rw [if_neg hxy, if_neg hyx] at hab
        by_cases hyz : y.toNat < z.toNat
        · rw [if_pos (show x.toNat < z.toNat by omega)]
        · by_cases hzy : z.toNat < y.toNat
          · rw [if_neg hyz, if_pos hzy] at hbc
            exact absurd hbc Bool.false_ne_true
          · rw [if_neg hyz, if_neg hzy] at hbc
            rw [if_neg (show ¬x.toNat < z.toNat by omega),
              if_neg (show ¬z.toNat < x.toNat by omega)]
            exact charsLe_trans xs ys zs hab hbc

instance : IsTotal Val valLeP := by
  constructor
  intro a b
  simp only [valLeP]
  rcases a with _ | x | m | s <;> rcases b with _ | y | n | t <;>
    simp only [valLe] <;>
    first
    | exact Or.inl trivial
    | exact Or.inr trivial
    | (cases x <;> cases y <;> simp)
    | exact charsLe_total _ _
    | (rcases le_total m n with h | h
       · exact Or.inl (decide_eq_true h)
       · exact Or.inr (decide_eq_true h))

instance : IsTrans Val valLeP := by
  constructor
  intro a b c hab hbc
  simp only [valLeP] at hab hbc ⊢
  rcases a with _ | x | m | s <;> rcases b with _ | y | n | t <;>
    rcases c with _ | z | k | u <;>
    simp only [valLe] at hab hbc ⊢ <;>
    first
    | trivial
    | exact absurd hab Bool.false_ne_true
    | exact absurd hbc Bool.false_ne_true
    | exact charsLe_trans _ _ _ hab hbc
    | (cases x <;> cases y <;> cases z <;> simp_all)
    | (simp only [decide_eq_true_eq] at hab hbc ⊢
       exact le_trans hab hbc)

theorem sum_map_ite_zero {β : Type} [DecidableEq β] (keys : List β) (b : β)
    (h : b ∉ keys) : (keys.map (fun k => if b = k then (1 : ℕ) else 0)).sum = 0 := by
  induction keys with
  | nil => rfl
  | cons k ks ih =>
    simp only [List.mem_cons, not_or] at h
    simp [h.1, ih h.2]

theorem sum_map_ite_one {β : Type} [DecidableEq β] (keys : List β) (b : β)
    (hnd : keys.Nodup) (hb : b ∈ keys) :
    (keys.map (fun k => if b = k then (1 : ℕ) else 0)).sum = 1 := by
  induction keys with
  | nil => simp at hb
  | cons k ks ih =>
    rcases List.mem_cons.mp hb with rfl | hb2
    · have hout : b ∉ ks := (List.nodup_cons.mp hnd).1
      simp [sum_map_ite_zero ks b hout]
    · have hne : b ≠ k := by
        rintro rfl
        exact (List.nodup_cons.mp hnd).1 hb2
      simp [hne, ih (List.nodup_cons.mp hnd).2 hb2]

theorem sum_countP_partition {α β : Type} [DecidableEq β] (l : List α) (keys : List β)
    (f : α → β) (hnd : keys.Nodup) (hmem : ∀ x ∈ l, f x ∈ keys) :
    (keys.map (fun k => l.countP (fun x => decide (f x = k)))).sum = l.length := by
  induction l with
  | nil => simp
  | cons a t ih =>
    have hstep :
        (keys.map (fun k => (a :: t).countP (fun x => decide (f x = k)))).sum =
          (keys.map (fun k =>
            t.countP (fun x => decide (f x = k)) + if f a = k then 1 else 0)).sum := by
      apply congrArg
      apply List.map_congr_left
      intro k _
      rw [List.countP_cons]
      simp
    rw [hstep, List.sum_map_add]
    rw [ih (fun x hx => hmem x (List.mem_cons_of_mem a hx))]
    rw [sum_map_ite_one keys (f a) hnd (hmem a (List.mem_cons_self a t))]
    simp [List.length_cons]

theorem groupPairs_snd_bool (e2 g : String) (df : DF) :
    ∀ p ∈ groupPairs g (addConverted e2 df), ∃ bb, p.2 = Val.bool bb := by
  intro p hp
  unfold groupPairs addConverted at hp
  simp only [List.mem_map] at hp
  obtain ⟨r, ⟨r0, _, rfl⟩, rfl⟩ := hp
  exact ⟨_, getVal_setVal_same _ _ _⟩

theorem groupPairs_fst (e2 g : String) (df : DF) (hg : g ≠ "converted") :
    (groupPairs g (addConverted e2 df)).map Prod.fst =
      df.rows.map (fun r => getVal r g) := by
  unfold groupPairs addConverted
  simp only [List.map_map]
  apply List.map_congr_left
  intro r _
  exact getVal_setVal_other r "converted" g _ (Ne.symm hg)

theorem groupCount_eq_countP_fst (pairs : List (Val × Val))
    (hb : ∀ p ∈ pairs, ∃ bb, p.2 = Val.bool bb) (k : Val) :
    groupCount pairs k = pairs.countP (fun p => decide (p.1 = k)) := by
  unfold groupCount
  apply List.countP_congr
  intro p hp
  obtain ⟨bb, hbb⟩ := hb p hp
  simp [hbb]

theorem mem_sortedGroupKeys (pairs : List (Val × Val)) (k : Val) :
    k ∈ sortedGroupKeys pairs ↔ (k ≠ Val.null ∧ k ∈ pairs.map Prod.fst) := by
  unfold sortedGroupKeys sortVals
  rw [List.mem_insertionSort, List.mem_dedup, List.mem_filter]
  simp [and_comm]

theorem nodup_sortedGroupKeys (pairs : List (Val × Val)) :
    (sortedGroupKeys pairs).Nodup := by
  unfold sortedGroupKeys sortVals
  exact (List.perm_insertionSort valLeP _).nodup_iff.mpr (List.nodup_dedup _)

theorem sorted_sortedGroupKeys (pairs : List (Val × Val)) :
    (sortedGroupKeys pairs).Sorted valLeP := by
  unfold sortedGroupKeys sortVals
  exact List.sorted_insertionSort valLeP _

theorem sum_groupCount (pairs : List (Val × Val))
    (hb : ∀ p ∈ pairs, ∃ bb, p.2 = Val.bool bb) :
    ((sortedGroupKeys pairs).map (fun k => groupCount pairs k)).sum =
      pairs.countP (fun p => decide (p.1 ≠ Val.null)) := by
  have h1 : (sortedGroupKeys pairs).map (fun k => groupCount pairs k) =
      (sortedGroupKeys pairs).map (fun k =>
        (pairs.filter (fun p => decide (p.1 ≠ Val.null))).countP
          (fun p => decide (p.1 = k))) := by
    apply List.map_congr_left
    intro k hk
    rw [groupCount_eq_countP_fst pairs hb k, List.countP_filter]
    apply List.countP_congr
    intro p _
    have hknn : k ≠ Val.null := ((mem_sortedGroupKeys pairs k).mp hk).1
    simp only [Bool.and_eq_true, decide_eq_true_eq]
    constructor
    · intro h
      exact ⟨h, h ▸ hknn⟩
    · intro h
      exact h.1
  rw [h1]
  rw [sum_countP_partition (pairs.filter (fun p => decide (p.1 ≠ Val.null)))
    (sortedGroupKeys pairs) Prod.fst (nodup_sortedGroupKeys pairs) ?hmem]
  · rw [← List.countP_eq_length_filter]
  case hmem =>
    intro p hp
    have hp2 := List.mem_filter.mp hp
    refine (mem_sortedGroupKeys pairs p.1).mpr ⟨by simpa using hp2.2, ?_⟩
    exact List.mem_map_of_mem Prod.fst hp2.1

theorem groupCount_pos (pairs : List (Val × Val))
    (hb : ∀ p ∈ pairs, ∃ bb, p.2 = Val.bool bb) (k : Val)
    (hk : k ∈ sortedGroupKeys pairs) : 0 < groupCount pairs k := by
  rw [groupCount_eq_countP_fst pairs hb k]
  obtain ⟨p, hp, hpk⟩ := List.mem_map.mp ((mem_sortedGroupKeys pairs k).mp hk).2
  exact List.countP_pos_iff.mpr ⟨p, hp, by simp [hpk]⟩

theorem sum_valNum_bool_bounds (l : List Val)
    (h : ∀ v ∈ l, ∃ bb, v = Val.bool bb) :
    0 ≤ (l.map valNum).sum ∧ (l.map valNum).sum ≤ (l.length : ℤ) := by
  induction l with
  | nil => simp
  | cons v t ih =>
    obtain ⟨bb, rfl⟩ := h v (List.mem_cons_self v t)
    have iht := ih (fun w hw => h w (List.mem_cons_of_mem _ hw))
    cases bb <;> simp only [List.map_cons, List.sum_cons, valNum, List.length_cons] <;>
      constructor <;> push_cast <;> omega

theorem sum_valNum_eq_count_true (l : List Val)
    (h : ∀ v ∈ l, ∃ bb, v = Val.bool bb) :
    (l.map valNum).sum = (l.countP (fun v => decide (v = Val.bool true)) : ℤ) := by
  induction l with
  | nil => simp
  | cons v t ih =>
    obtain ⟨bb, rfl⟩ := h v (List.mem_cons_self v t)
    have iht := ih (fun w hw => h w (List.mem_cons_of_mem _ hw))
    cases bb with
    | false =>
      simp only [List.map_cons, List.sum_cons, valNum, List.countP_cons, iht]
      simp
    | true =>
      simp only [List.map_cons, List.sum_cons, valNum, List.countP_cons, iht]
      simp
      omega

theorem makeRecords_map_key (pairs : List (Val × Val)) :
    (makeRecords pairs).map (fun rec => rec.key) = sortedGroupKeys pairs := by
  unfold makeRecords
  rw [List.map_map]
  exact List.map_id'' (fun x => rfl) _

theorem calculate_eq_some_inv (df : DF) (e1 e2 g : String)
    (recs : List ConversionRecord) (lift : Option LiftVal)
    (h : (calculate_conversion_rates df e1 e2 g).2 = some (recs, lift)) :
    recs = makeRecords (groupPairs g (addConverted e2 df)) ∧
      (calculate_conversion_rates df e1 e2 g).1 = addConverted e2 df := by
  unfold calculate_conversion_rates at h ⊢
  split at h
  · simp at h
  · rename_i hcond
    rw [if_neg hcond]
    constructor
    · simp only [Option.some.injEq, Prod.mk.injEq] at h
      exact h.1.symm
    · rfl

theorem sortVals_eq_nil_iff (l : List Val) : sortVals l = [] ↔ l = [] := by
  unfold sortVals
  constructor
  · intro h
    have hperm := List.perm_insertionSort valLeP l
    rw [h] at hperm
    exact hperm.symm.eq_nil
  · intro h
    rw [h]
    rfl

theorem chiRowKeys_eq_nil_iff (df : DF) (g : String) :
    chiRowKeys df g = [] ↔ chiKept df g = [] := by
  unfold chiRowKeys
  rw [sortVals_eq_nil_iff, List.dedup_eq_nil, List.map_eq_nil_iff]

theorem mem_chiRowKeys (df : DF) (g : String) (a : Val) :
    a ∈ chiRowKeys df g ↔ a ∈ (chiKept df g).map (fun r => getVal r g) := by
  unfold chiRowKeys sortVals
  rw [List.mem_insertionSort, List.mem_dedup]

theorem mem_chiColKeys (df : DF) (g : String) (c : Val) :
    c ∈ chiColKeys df g ↔ c ∈ (chiKept df g).map (fun r => getVal r "converted") := by
  unfold chiColKeys sortVals
  rw [List.mem_insertionSort, List.mem_dedup]

theorem chiRowTotal_pos (df : DF) (g : String) (a : Val)
    (ha : a ∈ chiRowKeys df g) : 0 < chiRowTotal df g a := by
  obtain ⟨r, hr, hra⟩ := List.mem_map.mp ((mem_chiRowKeys df g a).mp ha)
  have hc0 : getVal r "converted" ∈ chiColKeys df g :=
    (mem_chiColKeys df g _).mpr (List.mem_map_of_mem _ hr)
  have hcell : 0 < chiCell df g a (getVal r "converted") :=
    List.countP_pos_iff.mpr ⟨r, hr, by simp [hra]⟩
  have hmem : chiCell df g a (getVal r "converted") ∈
      (chiColKeys df g).map (fun c => chiCell df g a c) :=
    List.mem_map_of_mem _ hc0
  exact lt_of_lt_of_le hcell
    (List.single_le_sum (fun x _ => Nat.zero_le x) _ hmem)

theorem chiColTotal_pos (df : DF) (g : String) (c : Val)
    (hc : c ∈ chiColKeys df g) : 0 < chiColTotal df g c := by
  obtain ⟨r, hr, hrc⟩ := List.mem_map.mp ((mem_chiColKeys df g c).mp hc)
  have ha0 : getVal r g ∈ chiRowKeys df g :=
    (mem_chiRowKeys df g _).mpr (List.mem_map_of_mem _ hr)
  have hcell : 0 < chiCell df g (getVal r g) c :=
    List.countP_pos_iff.mpr ⟨r, hr, by simp [hrc]⟩
  have hmem : chiCell df g (getVal r g) c ∈
      (chiRowKeys df g).map (fun a => chiCell df g a c) :=
    List.mem_map_of_mem _ ha0
  exact lt_of_lt_of_le hcell
    (List.single_le_sum (fun x _ => Nat.zero_le x) _ hmem)

theorem chiGrand_pos (df : DF) (g : String) (h : chiRowKeys df g ≠ []) :
    0 < chiGrand df g := by
  obtain ⟨a, ha⟩ := List.exists_mem_of_ne_nil _ h
  have hrt : 0 < chiRowTotal df g a := chiRowTotal_pos df g a ha
  have hmem : chiRowTotal df g a ∈ (chiRowKeys df g).map (fun a => chiRowTotal df g a) :=
    List.mem_map_of_mem _ ha
  exact lt_of_lt_of_le hrt
    (List.single_le_sum (fun x _ => Nat.zero_le x) _ hmem)

theorem chiExpected_entry_pos (df : DF) (g : String) (a c : Val)
    (ha : a ∈ chiRowKeys df g) (hc : c ∈ chiColKeys df g) :
    0 < ((chiRowTotal df g a : ℚ) * (chiColTotal df g c : ℚ)) / (chiGrand df g : ℚ) := by
  have h1 : (0 : ℚ) < (chiRowTotal df g a : ℚ) := by
    exact_mod_cast chiRowTotal_pos df g a ha
  have h2 : (0 : ℚ) < (chiColTotal df g c : ℚ) := by
    exact_mod_cast chiColTotal_pos df g c hc
  have h3 : (0 : ℚ) < (chiGrand df g : ℚ) := by
    have : chiRowKeys df g ≠ [] := by
      intro hnil
      rw [hnil] at ha
      simp at ha
    exact_mod_cast chiGrand_pos df g this
  exact div_pos (mul_pos h1 h2) h3

theorem chiColKeys_eq_nil_iff (df : DF) (g : String) :
    chiColKeys df g = [] ↔ chiKept df g = [] := by
  unfold chiColKeys
  rw [sortVals_eq_nil_iff, List.dedup_eq_nil, List.map_eq_nil_iff]

theorem chiExpected_no_zero (df : DF) (g : String) :
    (chiExpected df g).any (fun row => row.any (fun x => decide (x = 0))) = false := by
  rw [List.any_eq_false]
  intro row hrow
  rw [Bool.not_eq_true, List.any_eq_false]
  intro x hx
  unfold chiExpected at hrow
  obtain ⟨a, ha, rfl⟩ := List.mem_map.mp hrow
  obtain ⟨c, hc, rfl⟩ := List.mem_map.mp hx
  have := chiExpected_entry_pos df g a c ha hc
  simp only [decide_eq_true_eq]
  exact ne_of_gt this

/-! Concrete datasets used to evaluate the model at specific inputs. -/

/-- Two rows: one in arm A with a null event-2 cell, one in arm B with a
non-null event-2 cell — so arm A converts at rate 0 and arm B at rate 1. -/
def dfZeroA : DF :=
  { cols := ["e1", "e2", "g"],
    rows := [[("g", Val.str "A")], [("g", Val.str "B"), ("e2", Val.str "y")]] }

/-- The empty dataset: a query that returned no rows materialises as a frame
with no rows and no columns. -/
def dfEmpty : DF := { cols := [], rows := [] }

/-- One row whose assignment cell is null while both columns exist: the
crosstab of this frame is empty. -/
def dfNullAssign : DF :=
  { cols := ["g", "converted"], rows := [[("converted", Val.bool true)]] }

/-- Two rows with arm B first, then arm A, so first-encounter order is B, A. -/
def dfBFirst : DF :=
  { cols := ["e1", "e2", "g"],
    rows := [[("g", Val.str "B")], [("g", Val.str "A"), ("e2", Val.str "y")]] }

/-- The records `calculate_conversion_rates` emits on `dfBFirst`. -/
def recsBFirst : List ConversionRecord :=
  [{ key := Val.str "A", count := 1, sum := 1, conversion_rate := 1 },
   { key := Val.str "B", count := 1, sum := 0, conversion_rate := 0 }]

/-- Claim C1: the spec requires that when variant A's conversion rate is 0
the lift is absent (division by zero guarded, no infinity/NaN to the
caller).  The code has no such guard: on `dfZeroA` (assignment values
exactly A and B, variant A rate 0) the numpy division produces a positive
infinity which `calculate_conversion_rates` returns as the lift value. -/
theorem C1_zero_rate_yields_inf_lift :
    recordsOf (calculate_conversion_rates dfZeroA "e1" "e2" "g") =
      some [{ key := Val.str "A", count := 1, sum := 0, conversion_rate := 0 },
            { key := Val.str "B", count := 1, sum := 1, conversion_rate := 1 }]
    ∧ liftOf (calculate_conversion_rates dfZeroA "e1" "e2" "g") = some LiftVal.inf := by
  decide

/-- Claim C4: `calculate_conversion_rates` returns `(absent, absent)` exactly
when the dataset is empty (no rows or no columns) or one of the three
column names is not a column, and in that case the dataset is left
untouched (no computation, no enrichment, no error). -/
theorem C4_soft_failure_guard (df : DF) (e1 e2 g : String) :
    ((calculate_conversion_rates df e1 e2 g).2 = none ↔
      (df.rows = [] ∨ df.cols = [] ∨ e1 ∉ df.cols ∨ e2 ∉ df.cols ∨ g ∉ df.cols))
    ∧ ((df.rows = [] ∨ df.cols = [] ∨ e1 ∉ df.cols ∨ e2 ∉ df.cols ∨ g ∉ df.cols) →
      (calculate_conversion_rates df e1 e2 g).1 = df) := by
  unfold calculate_conversion_rates
  by_cases h : df.rows = [] ∨ df.cols = [] ∨ e1 ∉ df.cols ∨ e2 ∉ df.cols ∨ g ∉ df.cols
  · rw [if_pos h]
    exact ⟨by simp [h], fun _ => rfl⟩
  · rw [if_neg h]
    exact ⟨by simp [h], fun hc => absurd hc h⟩

/-- Witness for C4 at the empty dataset. -/
theorem C4_soft_failure_guard_witness :
    (calculate_conversion_rates dfEmpty "a" "b" "g").2 = none ∧
      (calculate_conversion_rates dfEmpty "a" "b" "g").1 = dfEmpty :=
  ⟨(C4_soft_failure_guard dfEmpty "a" "b" "g").1.mpr (Or.inl rfl),
   (C4_soft_failure_guard dfEmpty "a" "b" "g").2 (Or.inl rfl)⟩

/-- Claim C2 counterexample: `perform_chi_squared_test` is not exception
free.  On `dfNullAssign` both required columns exist, so the guard passes,
but every row has a null assignment value; the crosstab is empty and
`chi2_contingency` raises `ValueError` (`observed.size == 0`) instead of
returning an absent result. -/
theorem C2_counterexample_chi_raises :
    perform_chi_squared_test dfNullAssign "g" = ChiOutcome.raisesError := by
  decide

/-- One string-valued `converted` cell on a clean two-arm dataset: the
posterior chart's `len(variant_data) - variant_data["converted"].sum()`
raises `TypeError` on it. -/
def dfStrConv : DF :=
  { cols := ["g", "converted"],
    rows := [[("g", Val.str "A"), ("converted", Val.str "x")],
             [("g", Val.str "B"), ("converted", Val.bool true)]] }

/-- Claim C2 as amended: `calculate_conversion_rates` has no exception path
(it is total in the model), and on the empty dataset all three functions
return absent without raising; but the other two are not exception free:
`perform_chi_squared_test` raises exactly when both its columns are present
and every row has a null in the assignment or `converted` cell (empty
contingency table), and `create_posterior_distribution_chart` raises
exactly when its guards pass (columns present, distinct assignment values
exactly A and B) and some row's pre-existing `converted` cell is a string
(the `TypeError` from `len(variant_data) - variant_data["converted"].sum()`),
as `dfStrConv` exhibits concretely. -/
theorem C2_amended_exception_behavior :
    ((calculate_conversion_rates dfEmpty "a" "b" "g").2 = none
      ∧ perform_chi_squared_test dfEmpty "g" = ChiOutcome.absent
      ∧ create_posterior_distribution_chart dfEmpty "g" = PosteriorOutcome.absent)
    ∧ (∀ (df : DF) (g : String),
        perform_chi_squared_test df g = ChiOutcome.raisesError ↔
          (g ∈ df.cols ∧ "converted" ∈ df.cols ∧ chiKept df g = []))
    ∧ (∀ (df : DF) (g : String),
        create_posterior_distribution_chart df g = PosteriorOutcome.raisesError ↔
          (g ∈ df.cols ∧ "converted" ∈ df.cols
            ∧ ((firstDistinct (df.rows.map (fun r => getVal r g))).length = 2
              ∧ Val.str "A" ∈ firstDistinct (df.rows.map (fun r => getVal r g))
              ∧ Val.str "B" ∈ firstDistinct (df.rows.map (fun r => getVal r g)))
            ∧ df.rows.any (fun r => (getVal r "converted").isStr) = true))
    ∧ create_posterior_distribution_chart dfStrConv "g" =
        PosteriorOutcome.raisesError := by
  refine ⟨⟨by decide, by decide, by decide⟩, ?_, ?_, by decide⟩
  · intro df g
    unfold perform_chi_squared_test
    split
    · rename_i hguard
      constructor
      · intro h
        exact ChiOutcome.noConfusion h
      · rintro ⟨hg, hc, -⟩
        rcases hguard with h | h
        · exact absurd hg h
        · exact absurd hc h
    · rename_i hguard
      push_neg at hguard
      split
      · rename_i hRC
        constructor
        · intro _
          refine ⟨hguard.1, hguard.2, ?_⟩
          rcases hRC with h0 | h0
          · exact (chiRowKeys_eq_nil_iff df g).mp (List.length_eq_zero.mp h0)
          · exact (chiColKeys_eq_nil_iff df g).mp (List.length_eq_zero.mp h0)
        · intro _
          rfl
      · rename_i hRC
        split
        · rename_i hexp
          rw [chiExpected_no_zero df g] at hexp
          exact absurd hexp Bool.false_ne_true
        · constructor
          · intro h
            exact ChiOutcome.noConfusion h
          · rintro ⟨-, -, hkept⟩
            exact absurd (Or.inl (List.length_eq_zero.mpr
              ((chiRowKeys_eq_nil_iff df g).mpr hkept))) hRC
  · intro df g
    unfold create_posterior_distribution_chart
    split
    · rename_i hguard
      constructor
      · intro h
        exact PosteriorOutcome.noConfusion h
      · rintro ⟨hg, hc, -, -⟩
        rcases hguard with h | h
        · exact absurd hg h
        · exact absurd hc h
    · rename_i hguard
      push_neg at hguard
      split
      · rename_i hvar
        constructor
        · intro h
          exact PosteriorOutcome.noConfusion h
        · rintro ⟨-, -, ⟨h2, hA, hB⟩, -⟩
          rcases hvar with h0 | h0 | h0
          · exact absurd h2 h0
          · exact absurd hA h0
          · exact absurd hB h0
      · rename_i hvar
        push_neg at hvar
        split
        · rename_i hstr
          constructor
          · intro _
            exact ⟨hguard.1, hguard.2, ⟨hvar.1, hvar.2.1, hvar.2.2⟩, hstr⟩
          · intro _
            rfl
        · rename_i hstr
          constructor
          · intro h
            exact PosteriorOutcome.noConfusion h
          · rintro ⟨-, -, -, h4⟩
            exact absurd h4 hstr

/-- Claim C3 counterexample: the records are not emitted in
first-encountered group order.  On `dfBFirst` the first-encountered order of
assignment values is B then A, but the groupby sorts its keys, so the
records come out A then B. -/
theorem C3_counterexample_sorted_not_first_seen :
    recordsOf (calculate_conversion_rates dfBFirst "e1" "e2" "g") = some recsBFirst
    ∧ recsBFirst.map (fun rec => rec.key) = [Val.str "A", Val.str "B"]
    ∧ firstDistinct (dfBFirst.rows.map (fun r => getVal r "g")) =
        [Val.str "B", Val.str "A"]
    ∧ ([Val.str "A", Val.str "B"] : List Val) ≠ [Val.str "B", Val.str "A"] := by
  decide

/-- Claim C3 as amended: on every non-empty dataset whose selected columns
exist, `calculate_conversion_rates` emits exactly one record per distinct
non-null assignment value, in ascending order of the assignment value
(pandas `groupby` sorts group keys), not in first-encounter order. -/
theorem C3_amended_sorted_group_order (df : DF) (e1 e2 g : String)
    (hg : g ≠ "converted") (recs : List ConversionRecord) (lift : Option LiftVal)
    (h : (calculate_conversion_rates df e1 e2 g).2 = some (recs, lift)) :
    (recs.map (fun rec => rec.key)).Sorted valLeP
    ∧ (recs.map (fun rec => rec.key)).Nodup
    ∧ ∀ k : Val, k ∈ recs.map (fun rec => rec.key) ↔
        (k ≠ Val.null ∧ k ∈ df.rows.map (fun r => getVal r g)) := by
  obtain ⟨hrecs, -⟩ := calculate_eq_some_inv df e1 e2 g recs lift h
  subst hrecs
  rw [makeRecords_map_key]
  refine ⟨sorted_sortedGroupKeys _, nodup_sortedGroupKeys _, ?_⟩
  intro k
  rw [mem_sortedGroupKeys, groupPairs_fst e2 g df hg]

/-- Witness for C3 as amended, at `dfBFirst`. -/
theorem C3_amended_sorted_group_order_witness :
    (recsBFirst.map (fun rec => rec.key)).Sorted valLeP
    ∧ (recsBFirst.map (fun rec => rec.key)).Nodup
    ∧ ∀ k : Val, k ∈ recsBFirst.map (fun rec => rec.key) ↔
        (k ≠ Val.null ∧ k ∈ dfBFirst.rows.map (fun r => getVal r "g")) :=
  C3_amended_sorted_group_order dfBFirst "e1" "e2" "g" (by decide) recsBFirst
    (some (LiftVal.finite (-1))) (by decide)

/-- One row that already carries a `converted` column with a string value;
the enrichment overwrites it. -/
def dfPreConverted : DF :=
  { cols := ["e1", "e2", "g", "converted"],
    rows := [[("g", Val.str "A"), ("converted", Val.str "orig")]] }

/-- Claim C9 counterexample: the enrichment is not non-destructive for a
dataset that already contains a `converted` column — the assignment
`df["converted"] = ~df[event2_col].isnull()` overwrites the pre-existing
values (here `"orig"` becomes `False`). -/
theorem C9_counterexample_converted_overwritten :
    getVal ((calculate_conversion_rates dfPreConverted "e1" "e2" "g").1.rows.headD [])
        "converted" = Val.bool false
    ∧ getVal (dfPreConverted.rows.headD []) "converted" = Val.str "orig"
    ∧ Val.bool false ≠ Val.str "orig" := by
  decide

/-- Claim C9 as amended: past the guard, the only mutation
`calculate_conversion_rates` performs on the dataset is writing the derived
boolean `converted` column — every column other than `converted` keeps its
name and all its values, and each row's `converted` cell becomes the
non-nullness of its event-2 cell.  A pre-existing `converted` column is
overwritten, not preserved. -/
theorem C9_amended_only_converted_written (df : DF) (e1 e2 g : String)
    (h : (calculate_conversion_rates df e1 e2 g).2 ≠ none) :
    (∀ c ∈ df.cols, c ∈ (calculate_conversion_rates df e1 e2 g).1.cols)
    ∧ List.Forall₂ (fun r r' =>
        (∀ c, c ≠ "converted" → getVal r' c = getVal r c)
        ∧ getVal r' "converted" = Val.bool (convFlag e2 r))
      df.rows (calculate_conversion_rates df e1 e2 g).1.rows := by
  rcases hx : (calculate_conversion_rates df e1 e2 g).2 with - | ⟨recs, lift⟩
  · exact absurd hx h
  obtain ⟨-, h1⟩ := calculate_eq_some_inv df e1 e2 g recs lift hx
  rw [h1]
  constructor
  · intro c hc
    unfold addConverted
    split
    · exact hc
    · exact List.mem_append_left _ hc
  · show List.Forall₂ _ df.rows ((addConverted e2 df).rows)
    unfold addConverted
    rw [List.forall₂_map_right_iff]
    rw [List.forall₂_same]
    intro r _
    constructor
    · intro c hc
      exact getVal_setVal_other r "converted" c _ (Ne.symm hc)
    · exact getVal_setVal_same r "converted" _

/-- The 4-row scenario dataset of the spec: assignment A, A, B, B with one
conversion in each arm. -/
def dfFour : DF :=
  { cols := ["e1", "e2", "g"],
    rows := [[("g", Val.str "A")],
             [("g", Val.str "A"), ("e2", Val.str "x")],
             [("g", Val.str "B")],
             [("g", Val.str "B"), ("e2", Val.str "y")]] }

/-- The records `calculate_conversion_rates` emits on `dfFour`. -/
def recsFour : List ConversionRecord :=
  [{ key := Val.str "A", count := 2, sum := 1, conversion_rate := 1 / 2 },
   { key := Val.str "B", count := 2, sum := 1, conversion_rate := 1 / 2 }]

/-- Claim C6: when the assignment column only holds the values A and B and
the call succeeds, the group counts sum to the number of rows, every group
count is positive, and every conversion rate lies in [0, 1]. -/
theorem C6_conversion_invariants (df : DF) (e1 e2 g : String)
    (hAB : ∀ r ∈ df.rows, getVal r g = Val.str "A" ∨ getVal r g = Val.str "B")
    (recs : List ConversionRecord) (lift : Option LiftVal)
    (h : (calculate_conversion_rates df e1 e2 g).2 = some (recs, lift)) :
    (recs.map (fun rec => rec.count)).sum = df.rows.length
    ∧ ∀ rec ∈ recs, 0 < rec.count
        ∧ 0 ≤ rec.conversion_rate ∧ rec.conversion_rate ≤ 1 := by
  obtain ⟨hrecs, -⟩ := calculate_eq_some_inv df e1 e2 g recs lift h
  subst hrecs
  have hb := groupPairs_snd_bool e2 g df
  have hfst : ∀ p ∈ groupPairs g (addConverted e2 df), p.1 ≠ Val.null := by
    intro p hp
    unfold groupPairs addConverted at hp
    simp only [List.mem_map] at hp
    obtain ⟨r', ⟨r, hr, rfl⟩, rfl⟩ := hp
    by_cases hgc : g = "converted"
    · subst hgc
      rw [getVal_setVal_same]
      simp
    · rw [getVal_setVal_other _ _ _ _ (Ne.symm hgc)]
      rcases hAB r hr with h1 | h1 <;> simp [h1]
  constructor
  · have hmc : (makeRecords (groupPairs g (addConverted e2 df))).map
        (fun rec => rec.count) =
        (sortedGroupKeys (groupPairs g (addConverted e2 df))).map
          (fun k => groupCount (groupPairs g (addConverted e2 df)) k) := by
      unfold makeRecords
      rw [List.map_map]
      rfl
    rw [hmc, sum_groupCount _ hb]
    rw [List.countP_eq_length.mpr (fun p hp => by simpa using hfst p hp)]
    unfold groupPairs addConverted
    simp
  · intro rec hrec
    unfold makeRecords at hrec
    obtain ⟨k, hk, rfl⟩ := List.mem_map.mp hrec
    have hsb : ∀ v ∈ ((groupPairs g (addConverted e2 df)).filter
        (fun p => decide (p.1 = k))).map (fun p => p.2), ∃ bb, v = Val.bool bb := by
      intro v hv
      obtain ⟨p, hp, rfl⟩ := List.mem_map.mp hv
      exact hb p (List.mem_of_mem_filter hp)
    have hbd := sum_valNum_bool_bounds _ hsb
    have hS : (((groupPairs g (addConverted e2 df)).filter
        (fun p => decide (p.1 = k))).map (fun p => p.2)).map valNum =
        ((groupPairs g (addConverted e2 df)).filter
          (fun p => decide (p.1 = k))).map (fun p => valNum p.2) := by
      rw [List.map_map]
      rfl
    have hL : (((groupPairs g (addConverted e2 df)).filter
        (fun p => decide (p.1 = k))).map (fun p => p.2)).length =
        groupCount (groupPairs g (addConverted e2 df)) k := by
      rw [List.length_map, ← List.countP_eq_length_filter,
        ← groupCount_eq_countP_fst _ hb k]
    rw [hS, hL] at hbd
    have hcpos := groupCount_pos _ hb k hk
    refine ⟨hcpos, ?_, ?_⟩
    · apply div_nonneg
      · exact_mod_cast hbd.1
      · exact Nat.cast_nonneg _
    · rw [div_le_one (by exact_mod_cast hcpos)]
      exact_mod_cast hbd.2

/-- Witness for C6 at the spec's 4-row scenario dataset. -/
theorem C6_conversion_invariants_witness :
    (recsFour.map (fun rec => rec.count)).sum = dfFour.rows.length
    ∧ ∀ rec ∈ recsFour, 0 < rec.count
        ∧ 0 ≤ rec.conversion_rate ∧ rec.conversion_rate ≤ 1 :=
  C6_conversion_invariants dfFour "e1" "e2" "g" (by decide) recsFour
    (some (LiftVal.finite 0)) (by decide)

/-- A dataset with event-1 values present. -/
def dfEv1 : DF :=
  { cols := ["e1", "e2", "g"],
    rows := [[("e1", Val.str "p"), ("g", Val.str "A")],
             [("e1", Val.str "q"), ("e2", Val.str "x"), ("g", Val.str "B")]] }

/-- The same dataset with only the event-1 values changed. -/
def dfEv2 : DF :=
  { cols := ["e1", "e2", "g"],
    rows := [[("e1", Val.int 7), ("g", Val.str "A")],
             [("e1", Val.null), ("e2", Val.str "x"), ("g", Val.str "B")]] }

theorem pairsList_congr (e1 e2 g : String) (h12 : e1 ≠ e2) (h1g : e1 ≠ g)
    (l1 l2 : List Row)
    (hrows : List.Forall₂ (fun r1 r2 => ∀ c, c ≠ e1 → getVal r1 c = getVal r2 c) l1 l2) :
    l1.map (fun r =>
      (getVal (setVal r "converted" (Val.bool (convFlag e2 r))) g,
       getVal (setVal r "converted" (Val.bool (convFlag e2 r))) "converted")) =
    l2.map (fun r =>
      (getVal (setVal r "converted" (Val.bool (convFlag e2 r))) g,
       getVal (setVal r "converted" (Val.bool (convFlag e2 r))) "converted")) := by
  induction hrows with
  | nil => rfl
  | cons hr ht ih =>
    rw [List.map_cons, List.map_cons]
    congr 1
    rename_i a b l1' l2'
    have hconv : convFlag e2 a = convFlag e2 b := by
      unfold convFlag
      rw [hr e2 (Ne.symm h12)]
    apply Prod.ext
    · by_cases hgc : g = "converted"
      · subst hgc
        rw [getVal_setVal_same, getVal_setVal_same, hconv]
      · rw [getVal_setVal_other _ _ _ _ (Ne.symm hgc),
          getVal_setVal_other _ _ _ _ (Ne.symm hgc)]
        exact hr g (Ne.symm h1g)
    · rw [getVal_setVal_same, getVal_setVal_same, hconv]

/-- Claim C5: the result of `calculate_conversion_rates` never depends on
the values in the event-1 column, only on the column's presence: two
datasets with the same columns whose rows agree on every column other than
`event1_col` (the three selected columns being distinct) produce the same
records and the same lift. -/
theorem C5_event1_values_immaterial (df1 df2 : DF) (e1 e2 g : String)
    (hcols : df1.cols = df2.cols)
    (hrows : List.Forall₂ (fun r1 r2 => ∀ c, c ≠ e1 → getVal r1 c = getVal r2 c)
      df1.rows df2.rows)
    (h12 : e1 ≠ e2) (h1g : e1 ≠ g) :
    (calculate_conversion_rates df1 e1 e2 g).2 =
      (calculate_conversion_rates df2 e1 e2 g).2 := by
  have hlen := hrows.length_eq
  have hpairs : groupPairs g (addConverted e2 df1) =
      groupPairs g (addConverted e2 df2) := by
    unfold groupPairs addConverted
    simp only [List.map_map]
    exact pairsList_congr e1 e2 g h12 h1g df1.rows df2.rows hrows
  have hre : (df1.rows = []) = (df2.rows = []) := by
    apply propext
    rw [← List.length_eq_zero, ← List.length_eq_zero, hlen]
  have hiff : (df1.rows = [] ∨ df1.cols = [] ∨ e1 ∉ df1.cols ∨ e2 ∉ df1.cols ∨
      g ∉ df1.cols) ↔ (df2.rows = [] ∨ df2.cols = [] ∨ e1 ∉ df2.cols ∨
      e2 ∉ df2.cols ∨ g ∉ df2.cols) := by
    rw [hre, hcols]
  unfold calculate_conversion_rates
  by_cases hcond : df2.rows = [] ∨ df2.cols = [] ∨ e1 ∉ df2.cols ∨
      e2 ∉ df2.cols ∨ g ∉ df2.cols
  · rw [if_pos (hiff.mpr hcond), if_pos hcond]
  · rw [if_neg (fun hc => hcond (hiff.mp hc)), if_neg hcond]
    simp only [hpairs]

/-- Witness for C5 at `dfEv1`/`dfEv2`. -/
theorem C5_event1_values_immaterial_witness :
    (calculate_conversion_rates dfEv1 "e1" "e2" "g").2 =
      (calculate_conversion_rates dfEv2 "e1" "e2" "g").2 :=
  C5_event1_values_immaterial dfEv1 dfEv2 "e1" "e2" "g" rfl
    (by
      refine List.Forall₂.cons ?_ (List.Forall₂.cons ?_ List.Forall₂.nil)
      · intro c hc
        have h' : ¬("e1" = c) := fun hh => hc hh.symm
        simp [getVal, h']
      · intro c hc
        have h' : ¬("e1" = c) := fun hh => hc hh.symm
        simp [getVal, h'])
    (by decide) (by decide)

theorem map_fst_filter_nonnull (l : List (Val × Val)) :
    (l.map Prod.fst).filter (fun v => decide (v ≠ Val.null)) =
      (l.filter (fun pr => decide (pr.1 ≠ Val.null))).map Prod.fst := by
  rw [List.filter_map]
  apply congrArg
  apply List.filter_congr
  intro x _
  rfl

theorem groupCount_filter_nonnull (pairs : List (Val × Val)) (k : Val)
    (hk : k ≠ Val.null) :
    groupCount (pairs.filter (fun pr => decide (pr.1 ≠ Val.null))) k =
      groupCount pairs k := by
  unfold groupCount
  rw [List.countP_filter]
  apply List.countP_congr
  intro p _
  simp only [Bool.and_eq_true, decide_eq_true_eq]
  constructor
  · intro hh
    exact hh.1
  · intro hh
    exact ⟨hh, hh.1 ▸ hk⟩

theorem groupSum_filter_nonnull (pairs : List (Val × Val)) (k : Val)
    (hk : k ≠ Val.null) :
    groupSum (pairs.filter (fun pr => decide (pr.1 ≠ Val.null))) k =
      groupSum pairs k := by
  unfold groupSum
  rw [List.filter_filter]
  apply congrArg
  apply congrArg
  apply List.filter_congr
  intro p _
  by_cases hpk : p.1 = k
  · simp [hpk, hk]
  · simp [hpk]

theorem sortedGroupKeys_filter_nonnull (pairs : List (Val × Val)) :
    sortedGroupKeys (pairs.filter (fun pr => decide (pr.1 ≠ Val.null))) =
      sortedGroupKeys pairs := by
  unfold sortedGroupKeys
  apply congrArg
  apply congrArg
  rw [map_fst_filter_nonnull, List.filter_filter, map_fst_filter_nonnull]
  apply congrArg
  apply List.filter_congr
  intro p _
  exact Bool.and_self _

theorem makeRecords_filter_nonnull (pairs : List (Val × Val)) :
    makeRecords (pairs.filter (fun pr => decide (pr.1 ≠ Val.null))) =
      makeRecords pairs := by
  unfold makeRecords
  rw [sortedGroupKeys_filter_nonnull]
  apply List.map_congr_left
  intro k hk
  have hknn : k ≠ Val.null := ((mem_sortedGroupKeys pairs k).mp hk).1
  rw [groupCount_filter_nonnull pairs k hknn, groupSum_filter_nonnull pairs k hknn]

/-- Three rows: one converted in arm A, one unconverted in arm B, one with a
null assignment cell. -/
def dfWithNull : DF :=
  { cols := ["e1", "e2", "g"],
    rows := [[("g", Val.str "A"), ("e2", Val.str "x")],
             [("g", Val.str "B")],
             [("e2", Val.str "z")]] }

/-- The records `calculate_conversion_rates` emits on `dfWithNull`. -/
def recsWithNull : List ConversionRecord :=
  [{ key := Val.str "A", count := 1, sum := 1, conversion_rate := 1 },
   { key := Val.str "B", count := 1, sum := 0, conversion_rate := 0 }]

/-- Claim C10: rows with a null assignment value are excluded from the
grouping entirely — with at least one such row the group counts sum to
strictly less than the row count, and the records coincide with those
computed from the dataset with the null-assignment rows removed (so such
rows affect no group's count, sum or conversion rate). -/
theorem C10_null_rows_excluded (df : DF) (e1 e2 g : String) (hg : g ≠ "converted")
    (recs : List ConversionRecord) (lift : Option LiftVal)
    (h : (calculate_conversion_rates df e1 e2 g).2 = some (recs, lift))
    (hnull : ∃ r ∈ df.rows, getVal r g = Val.null)
    (hsome : ∃ r ∈ df.rows, getVal r g ≠ Val.null) :
    (recs.map (fun rec => rec.count)).sum < df.rows.length
    ∧ recordsOf (calculate_conversion_rates df e1 e2 g) =
        recordsOf (calculate_conversion_rates
          { cols := df.cols,
            rows := df.rows.filter (fun r => decide (getVal r g ≠ Val.null)) }
          e1 e2 g) := by
  obtain ⟨hrecs, -⟩ := calculate_eq_some_inv df e1 e2 g recs lift h
  have hb := groupPairs_snd_bool e2 g df
  have hguard : ¬(df.rows = [] ∨ df.cols = [] ∨ e1 ∉ df.cols ∨ e2 ∉ df.cols ∨
      g ∉ df.cols) := by
    intro hc
    rw [(C4_soft_failure_guard df e1 e2 g).1.mpr hc] at h
    exact Option.noConfusion h
  push_neg at hguard
  have hcomm : (groupPairs g (addConverted e2 df)).filter
      (fun pr => decide (pr.1 ≠ Val.null)) =
      groupPairs g (addConverted e2
        { cols := df.cols,
          rows := df.rows.filter (fun r => decide (getVal r g ≠ Val.null)) }) := by
    unfold groupPairs addConverted
    simp only [List.map_map, List.filter_map]
    apply congrArg
    apply List.filter_congr
    intro r _
    simp only [Function.comp_apply, getVal_setVal_other r "converted" g _ (Ne.symm hg)]
  constructor
  · subst hrecs
    have hmc : (makeRecords (groupPairs g (addConverted e2 df))).map
        (fun rec => rec.count) =
        (sortedGroupKeys (groupPairs g (addConverted e2 df))).map
          (fun k => groupCount (groupPairs g (addConverted e2 df)) k) := by
      unfold makeRecords
      rw [List.map_map]
      rfl
    rw [hmc, sum_groupCount _ hb]
    obtain ⟨r0, hr0, hr0null⟩ := hnull
    have hplen : (groupPairs g (addConverted e2 df)).length = df.rows.length := by
      unfold groupPairs addConverted
      simp
    have hmemp : (getVal r0 g,
        getVal (setVal r0 "converted" (Val.bool (convFlag e2 r0))) "converted") ∈
        groupPairs g (addConverted e2 df) := by
      unfold groupPairs addConverted
      simp only [List.mem_map]
      refine ⟨setVal r0 "converted" (Val.bool (convFlag e2 r0)), ⟨r0, hr0, rfl⟩, ?_⟩
      rw [getVal_setVal_other r0 "converted" g _ (Ne.symm hg)]
    rw [← hplen]
    apply Nat.lt_of_le_of_ne (List.countP_le_length _)
    intro heq
    have := List.countP_eq_length.mp heq _ hmemp
    rw [hr0null] at this
    simp at this
  · unfold recordsOf
    rw [h]
    have hrowsF : df.rows.filter (fun r => decide (getVal r g ≠ Val.null)) ≠ [] := by
      obtain ⟨r1, hr1, hr1nn⟩ := hsome
      exact List.ne_nil_of_mem (List.mem_filter.mpr ⟨hr1, by simpa using hr1nn⟩)
    rcases hx : (calculate_conversion_rates
        { cols := df.cols,
          rows := df.rows.filter (fun r => decide (getVal r g ≠ Val.null)) }
        e1 e2 g).2 with - | ⟨recsF, liftF⟩
    · exfalso
      have hc5 := (C4_soft_failure_guard _ e1 e2 g).1.mp hx
      rcases hc5 with hc | hc | hc | hc | hc
      · exact hrowsF hc
      · exact hguard.2.1 hc
      · exact hc hguard.2.2.1
      · exact hc hguard.2.2.2.1
      · exact hc hguard.2.2.2.2
    · obtain ⟨hrecsF, -⟩ := calculate_eq_some_inv _ e1 e2 g recsF liftF hx
      have hre : recs = recsF := by
        rw [hrecs, hrecsF, ← hcomm, makeRecords_filter_nonnull]
      rw [hre]
      rfl

/-- Witness for C10 at `dfWithNull`. -/
theorem C10_null_rows_excluded_witness :
    (recsWithNull.map (fun rec => rec.count)).sum < dfWithNull.rows.length
    ∧ recordsOf (calculate_conversion_rates dfWithNull "e1" "e2" "g") =
        recordsOf (calculate_conversion_rates
          { cols := dfWithNull.cols,
            rows := dfWithNull.rows.filter
              (fun r => decide (getVal r "g" ≠ Val.null)) }
          "e1" "e2" "g") :=
  C10_null_rows_excluded dfWithNull "e1" "e2" "g" (by decide) recsWithNull
    (some (LiftVal.finite (-1))) (by decide) (by decide) (by decide)

theorem nodup_chiRowKeys (df : DF) (g : String) : (chiRowKeys df g).Nodup := by
  unfold chiRowKeys sortVals
  exact (List.perm_insertionSort valLeP _).nodup_iff.mpr (List.nodup_dedup _)

theorem nodup_chiColKeys (df : DF) (g : String) : (chiColKeys df g).Nodup := by
  unfold chiColKeys sortVals
  exact (List.perm_insertionSort valLeP _).nodup_iff.mpr (List.nodup_dedup _)

theorem chiCell_row_bridge (df : DF) (g : String) (a c : Val) :
    chiCell df g a c = ((chiKept df g).filter
      (fun r => decide (getVal r g = a))).countP
      (fun r => decide (getVal r "converted" = c)) := by
  unfold chiCell
  rw [List.countP_filter]
  apply List.countP_congr
  intro r _
  simp only [Bool.and_eq_true, decide_eq_true_eq]
  exact and_comm

theorem chiRowTotal_eq_countP (df : DF) (g : String) (a : Val) :
    chiRowTotal df g a = (chiKept df g).countP (fun r => decide (getVal r g = a)) := by
  unfold chiRowTotal
  have h1 : (chiColKeys df g).map (fun c => chiCell df g a c) =
      (chiColKeys df g).map (fun c => ((chiKept df g).filter
        (fun r => decide (getVal r g = a))).countP
        (fun r => decide (getVal r "converted" = c))) :=
    List.map_congr_left (fun c _ => chiCell_row_bridge df g a c)
  rw [h1]
  rw [sum_countP_partition ((chiKept df g).filter (fun r => decide (getVal r g = a)))
    (chiColKeys df g) (fun r => getVal r "converted") (nodup_chiColKeys df g)
    (fun r hr => (mem_chiColKeys df g _).mpr
      (List.mem_map_of_mem _ (List.mem_of_mem_filter hr)))]
  rw [← List.countP_eq_length_filter]

theorem chiCell_col_bridge (df : DF) (g : String) (a c : Val) :
    chiCell df g a c = ((chiKept df g).filter
      (fun r => decide (getVal r "converted" = c))).countP
      (fun r => decide (getVal r g = a)) := by
  unfold chiCell
  rw [List.countP_filter]
  apply List.countP_congr
  intro r _
  simp only [Bool.and_eq_true, decide_eq_true_eq]

theorem chiColTotal_eq_countP (df : DF) (g : String) (c : Val) :
    chiColTotal df g c =
      (chiKept df g).countP (fun r => decide (getVal r "converted" = c)) := by
  unfold chiColTotal
  have h1 : (chiRowKeys df g).map (fun a => chiCell df g a c) =
      (chiRowKeys df g).map (fun a => ((chiKept df g).filter
        (fun r => decide (getVal r "converted" = c))).countP
        (fun r => decide (getVal r g = a))) :=
    List.map_congr_left (fun a _ => chiCell_col_bridge df g a c)
  rw [h1]
  rw [sum_countP_partition ((chiKept df g).filter
      (fun r => decide (getVal r "converted" = c)))
    (chiRowKeys df g) (fun r => getVal r g) (nodup_chiRowKeys df g)
    (fun r hr => (mem_chiRowKeys df g _).mpr
      (List.mem_map_of_mem _ (List.mem_of_mem_filter hr)))]
  rw [← List.countP_eq_length_filter]

theorem chiGrand_eq_length (df : DF) (g : String) :
    chiGrand df g = (chiKept df g).length := by
  unfold chiGrand
  have h1 : (chiRowKeys df g).map (fun a => chiRowTotal df g a) =
      (chiRowKeys df g).map (fun a => (chiKept df g).countP
        (fun r => decide (getVal r g = a))) :=
    List.map_congr_left (fun a _ => chiRowTotal_eq_countP df g a)
  rw [h1]
  exact sum_countP_partition (chiKept df g) (chiRowKeys df g) (fun r => getVal r g)
    (nodup_chiRowKeys df g)
    (fun r hr => (mem_chiRowKeys df g _).mpr (List.mem_map_of_mem _ hr))

theorem chiColTotals_sum (df : DF) (g : String) :
    ((chiColKeys df g).map (fun c => chiColTotal df g c)).sum =
      (chiKept df g).length := by
  have h1 : (chiColKeys df g).map (fun c => chiColTotal df g c) =
      (chiColKeys df g).map (fun c => (chiKept df g).countP
        (fun r => decide (getVal r "converted" = c))) :=
    List.map_congr_left (fun c _ => chiColTotal_eq_countP df g c)
  rw [h1]
  exact sum_countP_partition (chiKept df g) (chiColKeys df g)
    (fun r => getVal r "converted") (nodup_chiColKeys df g)
    (fun r hr => (mem_chiColKeys df g _).mpr (List.mem_map_of_mem _ hr))

theorem sum_map_mul_div {α : Type} (keys : List α) (f : α → ℚ) (A N : ℚ) :
    (keys.map (fun c => A * f c / N)).sum = A * (keys.map f).sum / N := by
  induction keys with
  | nil => simp
  | cons k ks ih =>
    simp only [List.map_cons, List.sum_cons, ih]
    ring

theorem cast_sum_map_natCast (keys : List Val) (t : Val → ℕ) :
    (keys.map (fun c => ((t c : ℕ) : ℚ))).sum = (((keys.map t).sum : ℕ) : ℚ) := by
  rw [Nat.cast_list_sum, List.map_map]
  rfl

theorem chiColTotals_sum_cast (df : DF) (g : String) :
    ((chiColKeys df g).map (fun c => (chiColTotal df g c : ℚ))).sum =
      (chiGrand df g : ℚ) := by
  rw [cast_sum_map_natCast, chiColTotals_sum, chiGrand_eq_length]

theorem chiExpected_row_sum (df : DF) (g : String) (a : Val)
    (ha : a ∈ chiRowKeys df g) :
    ((chiColKeys df g).map (fun c =>
      ((chiRowTotal df g a : ℚ) * (chiColTotal df g c : ℚ)) /
        (chiGrand df g : ℚ))).sum = (chiRowTotal df g a : ℚ) := by
  rw [sum_map_mul_div, chiColTotals_sum_cast]
  have hN : (chiGrand df g : ℚ) ≠ 0 := by
    have := chiGrand_pos df g (List.ne_nil_of_mem ha)
    exact_mod_cast Nat.pos_iff_ne_zero.mp this
  rw [mul_div_assoc, div_self hN, mul_one]

/-- A two-arm dataset carrying its boolean `converted` column, as the UI
shell produces before the chart runs. -/
def dfPost : DF :=
  { cols := ["g", "converted"],
    rows := [[("g", Val.str "A"), ("converted", Val.bool false)],
             [("g", Val.str "A"), ("converted", Val.bool true)],
             [("g", Val.str "B"), ("converted", Val.bool false)],
             [("g", Val.str "B"), ("converted", Val.bool true)]] }

/-- The curves the posterior chart draws on `dfPost`. -/
def csPost : List PosteriorCurve :=
  ((create_posterior_distribution_chart dfPost "g").curvesOf).getD []

/-- A dataset with a single assignment group. -/
def dfOnlyA : DF :=
  { cols := ["g", "converted"],
    rows := [[("g", Val.str "A"), ("converted", Val.bool true)]] }

set_option maxRecDepth 8192 in
/-- Claim C7: the posterior chart is absent unless the assignment column has
exactly two distinct values and they are the literal labels A and B; on
success (with a boolean `converted` column) each of the two curves carries
Beta parameters `a = successes + 1` and `b = failures + 1` for its group,
and every curve is sampled over the fixed uniform 1000-point grid on
[0, 1]. -/
theorem C7_posterior_contract (df : DF) (g : String) :
    (¬ ((firstDistinct (df.rows.map (fun r => getVal r g))).length = 2
        ∧ Val.str "A" ∈ firstDistinct (df.rows.map (fun r => getVal r g))
        ∧ Val.str "B" ∈ firstDistinct (df.rows.map (fun r => getVal r g))) →
      create_posterior_distribution_chart df g = PosteriorOutcome.absent)
    ∧ ((∀ r ∈ df.rows, getVal r "converted" = Val.bool true ∨
          getVal r "converted" = Val.bool false) →
        ∀ cs, create_posterior_distribution_chart df g = PosteriorOutcome.ok cs →
        cs.length = 2
        ∧ ∀ curve ∈ cs,
            curve.a = ((df.rows.filter (fun r => decide (getVal r g = curve.label))).countP
                (fun r => decide (getVal r "converted" = Val.bool true)) : ℤ) + 1
            ∧ curve.b = (((df.rows.filter
                  (fun r => decide (getVal r g = curve.label))).length : ℤ) -
                ((df.rows.filter (fun r => decide (getVal r g = curve.label))).countP
                  (fun r => decide (getVal r "converted" = Val.bool true)) : ℤ)) + 1
            ∧ curve.points.map Prod.fst = posteriorGrid)
    ∧ (posteriorGrid.length = 1000 ∧ posteriorGrid.headD 1 = 0
        ∧ posteriorGrid.getLastD 0 = 1) := by
  refine ⟨?_, ?_, by decide, by decide, by decide⟩
  · intro hn
    unfold create_posterior_distribution_chart
    split
    · rfl
    · split
      · rfl
      · rename_i hc2
        push_neg at hc2
        exact absurd ⟨hc2.1, hc2.2.1, hc2.2.2⟩ hn
  · intro hbool cs hcs
    unfold create_posterior_distribution_chart at hcs
    split at hcs
    · exact PosteriorOutcome.noConfusion hcs
    · split at hcs
      · exact PosteriorOutcome.noConfusion hcs
      · split at hcs
        · exact PosteriorOutcome.noConfusion hcs
        rename_i hc2 hstr
        push_neg at hc2
        rw [PosteriorOutcome.ok.injEq] at hcs
        subst hcs
        constructor
        · rw [List.length_map]
          exact hc2.1
        · intro curve hcurve
          rw [List.mem_map] at hcurve
          obtain ⟨v, hv, rfl⟩ := hcurve
          have hsucc : ((df.rows.filter (fun r => decide (getVal r g = v))).map
              (fun r => valNum (getVal r "converted"))).sum =
              ((df.rows.filter (fun r => decide (getVal r g = v))).countP
                (fun r => decide (getVal r "converted" = Val.bool true)) : ℤ) := by
            have hmm : ∀ w ∈ (df.rows.filter
                (fun r => decide (getVal r g = v))).map
                  (fun r => getVal r "converted"), ∃ bb, w = Val.bool bb := by
              intro w hw
              obtain ⟨r, hr, rfl⟩ := List.mem_map.mp hw
              rcases hbool r (List.mem_of_mem_filter hr) with h1 | h1
              · exact ⟨true, h1⟩
              · exact ⟨false, h1⟩
            have hval := sum_valNum_eq_count_true _ hmm
            rw [List.map_map, List.countP_map] at hval
            exact hval
          refine ⟨?_, ?_, ?_⟩
          · show ((df.rows.filter (fun r => decide (getVal r g = v))).map
                (fun r => valNum (getVal r "converted"))).sum + 1 = _
            rw [hsucc]
          · show ((df.rows.filter (fun r => decide (getVal r g = v))).length : ℤ) -
                ((df.rows.filter (fun r => decide (getVal r g = v))).map
                  (fun r => valNum (getVal r "converted"))).sum + 1 = _
            rw [hsucc]
          · show (posteriorGrid.map (fun x => (x, betaPdfQ _ _ x))).map Prod.fst = _
            rw [List.map_map]
            exact List.map_id'' (fun x => rfl) _

/-- Witness for C7: absent on the single-group dataset, and parameters and
grid as claimed on `dfPost`. -/
theorem C7_posterior_contract_witness :
    create_posterior_distribution_chart dfOnlyA "g" = PosteriorOutcome.absent
    ∧ csPost.length = 2
    ∧ ∀ curve ∈ csPost,
        curve.a = ((dfPost.rows.filter
            (fun r => decide (getVal r "g" = curve.label))).countP
            (fun r => decide (getVal r "converted" = Val.bool true)) : ℤ) + 1
        ∧ curve.b = (((dfPost.rows.filter
              (fun r => decide (getVal r "g" = curve.label))).length : ℤ) -
            ((dfPost.rows.filter (fun r => decide (getVal r "g" = curve.label))).countP
              (fun r => decide (getVal r "converted" = Val.bool true)) : ℤ)) + 1
        ∧ curve.points.map Prod.fst = posteriorGrid :=
  ⟨(C7_posterior_contract dfOnlyA "g").1 (by decide),
   ((C7_posterior_contract dfPost "g").2.1 (by decide) csPost rfl).1,
   ((C7_posterior_contract dfPost "g").2.1 (by decide) csPost rfl).2⟩

/-- A balanced two-arm dataset with a boolean `converted` column, giving a
2-by-2 contingency table with all cells 1. -/
def dfChiBal : DF :=
  { cols := ["g", "converted"],
    rows := [[("g", Val.str "A"), ("converted", Val.bool true)],
             [("g", Val.str "A"), ("converted", Val.bool false)],
             [("g", Val.str "B"), ("converted", Val.bool true)],
             [("g", Val.str "B"), ("converted", Val.bool false)]] }

/-- A dataset missing the `converted` column. -/
def dfNoConv : DF :=
  { cols := ["g"], rows := [[("g", Val.str "A")]] }

/-- Claim C8: `perform_chi_squared_test` is absent when the assignment or
`converted` column is missing; when it returns a result and the converted
outcome is binary (two distinct kept values), the degrees of freedom are
(#assignment groups − 1) × 1 and the expected-frequency table sums to the
same grand total as the observed contingency table. -/
theorem C8_chi_squared_contract (df : DF) (g : String) :
    ((g ∉ df.cols ∨ "converted" ∉ df.cols) →
      perform_chi_squared_test df g = ChiOutcome.absent)
    ∧ (∀ res, (perform_chi_squared_test df g).resOf = some res →
        ((chiColKeys df g).length = 2 →
          res.dof = ((chiRowKeys df g).length - 1) * 1)
        ∧ (res.expected.map List.sum).sum =
            ((((chiObserved df g).map List.sum).sum : ℕ) : ℚ)) := by
  constructor
  · intro h
    unfold perform_chi_squared_test
    rw [if_pos h]
  · intro res hres
    unfold perform_chi_squared_test at hres
    split at hres
    · simp [ChiOutcome.resOf] at hres
    · split at hres
      · simp [ChiOutcome.resOf] at hres
      · split at hres
        · simp [ChiOutcome.resOf] at hres
        · rename_i hguard hRC hexp
          simp only [ChiOutcome.resOf, Option.some.injEq] at hres
          subst hres
          constructor
          · intro hC2
            show ((chiRowKeys df g).length - 1) * ((chiColKeys df g).length - 1) =
              ((chiRowKeys df g).length - 1) * 1
            rw [hC2]
          · show ((chiExpected df g).map List.sum).sum = _
            have hobs : ((chiObserved df g).map List.sum).sum = chiGrand df g := by
              unfold chiObserved chiGrand chiRowTotal
              rw [List.map_map]
              rfl
            rw [hobs]
            unfold chiExpected
            rw [List.map_map]
            have hrows2 : (chiRowKeys df g).map (List.sum ∘ fun a =>
                (chiColKeys df g).map (fun c =>
                  ((chiRowTotal df g a : ℚ) * (chiColTotal df g c : ℚ)) /
                    (chiGrand df g : ℚ))) =
                (chiRowKeys df g).map (fun a => (chiRowTotal df g a : ℚ)) :=
              List.map_congr_left (fun a ha => chiExpected_row_sum df g a ha)
            rw [hrows2, cast_sum_map_natCast]
            apply congrArg
            apply congrArg
            rfl

/-- Witness for C8: absent when `converted` is missing, and dof and the
expected-table total as claimed on the balanced 2-by-2 dataset. -/
theorem C8_chi_squared_contract_witness :
    perform_chi_squared_test dfNoConv "g" = ChiOutcome.absent
    ∧ (({ chi2 := 0, dof := 1, expected := [[1, 1], [1, 1]] } : ChiSquaredResult).dof =
          ((chiRowKeys dfChiBal "g").length - 1) * 1
        ∧ ((({ chi2 := 0, dof := 1, expected := [[1, 1], [1, 1]] } :
            ChiSquaredResult).expected.map List.sum).sum =
          ((((chiObserved dfChiBal "g").map List.sum).sum : ℕ) : ℚ))) :=
  ⟨(C8_chi_squared_contract dfNoConv "g").1 (by decide),
   ((C8_chi_squared_contract dfChiBal "g").2
      { chi2 := 0, dof := 1, expected := [[1, 1], [1, 1]] } (by decide)).1 (by decide),
   ((C8_chi_squared_contract dfChiBal "g").2
      { chi2 := 0, dof := 1, expected := [[1, 1], [1, 1]] } (by decide)).2⟩

/-- Witness for C9 as amended, at `dfZeroA`. -/
theorem C9_amended_only_converted_written_witness :
    (∀ c ∈ dfZeroA.cols, c ∈ (calculate_conversion_rates dfZeroA "e1" "e2" "g").1.cols)
    ∧ List.Forall₂ (fun r r' =>
        (∀ c, c ≠ "converted" → getVal r' c = getVal r c)
        ∧ getVal r' "converted" = Val.bool (convFlag "e2" r))
      dfZeroA.rows (calculate_conversion_rates dfZeroA "e1" "e2" "g").1.rows :=
  C9_amended_only_converted_written dfZeroA "e1" "e2" "g" (by decide)

end SixPack
